import Mathlib

/-
  Verification of the cycloidal gearbox curve-generation and export engine
  (cycloidal_Gear_generator_V1-5.py).  The Python math functions are shallowly
  embedded over the real numbers: numpy arrays of sample points become Lean
  lists produced by mapping a point function over an index range, and
  np.linspace grids become explicit rational sample formulas.
-/

noncomputable section

namespace CycloidalGear

open Real

/-- Sample i of np.linspace a b n (endpoint=True): a + (b - a) * i / (n - 1). -/
def linspaceClosed (a b : ℝ) (n i : ℕ) : ℝ := a + (b - a) * i / ((n : ℝ) - 1)

/-- Sample i of np.linspace a b n (endpoint=False): a + (b - a) * i / n. -/
def linspaceOpen (a b : ℝ) (n i : ℕ) : ℝ := a + (b - a) * i / (n : ℝ)

/-- Rotation of a planar point by angle α (the rotation applied on source
lines 378-379 and 200-201 with α = -phi/num_lobes). -/
def rot2 (α : ℝ) (p : ℝ × ℝ) : ℝ × ℝ :=
  (p.1 * cos α - p.2 * sin α, p.1 * sin α + p.2 * cos α)

/-- Euclidean distance between two planar points. -/
def dist2 (p q : ℝ × ℝ) : ℝ := Real.sqrt ((p.1 - q.1) ^ 2 + (p.2 - q.2) ^ 2)

/-- Componentwise sum of two planar points. -/
def addV (p q : ℝ × ℝ) : ℝ × ℝ := (p.1 + q.1, p.2 + q.2)

/-- Source line 355: rolling_circle_radius = (num_lobes/(num_lobes+1)) * ring_radius. -/
def rolling_circle_radius (num_lobes : ℕ) (ring_radius : ℝ) : ℝ :=
  ((num_lobes : ℝ) / ((num_lobes : ℝ) + 1)) * ring_radius

/-- Source line 356: stationary_circle_radius = ring_radius / (num_lobes+1). -/
def stationary_circle_radius (num_lobes : ℕ) (ring_radius : ℝ) : ℝ :=
  ring_radius / ((num_lobes : ℝ) + 1)

/-- Source line 365: the x coordinate of the hypocycloid trace. -/
def cycloid_xa (eccentricity : ℝ) (num_lobes : ℕ) (ring_radius t : ℝ) : ℝ :=
  (rolling_circle_radius num_lobes ring_radius + stationary_circle_radius num_lobes ring_radius) *
      cos t -
    eccentricity *
      cos ((rolling_circle_radius num_lobes ring_radius +
            stationary_circle_radius num_lobes ring_radius) /
          stationary_circle_radius num_lobes ring_radius * t)

/-- Source line 366: the y coordinate of the hypocycloid trace. -/
def cycloid_ya (eccentricity : ℝ) (num_lobes : ℕ) (ring_radius t : ℝ) : ℝ :=
  (rolling_circle_radius num_lobes ring_radius + stationary_circle_radius num_lobes ring_radius) *
      sin t -
    eccentricity *
      sin ((rolling_circle_radius num_lobes ring_radius +
            stationary_circle_radius num_lobes ring_radius) /
          stationary_circle_radius num_lobes ring_radius * t)

/-- Source line 368: the analytic derivative dxa of the trace. -/
def cycloid_dxa (eccentricity : ℝ) (num_lobes : ℕ) (ring_radius t : ℝ) : ℝ :=
  (rolling_circle_radius num_lobes ring_radius + stationary_circle_radius num_lobes ring_radius) *
    (-sin t +
      (eccentricity / stationary_circle_radius num_lobes ring_radius) *
        sin ((rolling_circle_radius num_lobes ring_radius +
              stationary_circle_radius num_lobes ring_radius) /
            stationary_circle_radius num_lobes ring_radius * t))

/-- Source line 369: the analytic derivative dya of the trace. -/
def cycloid_dya (eccentricity : ℝ) (num_lobes : ℕ) (ring_radius t : ℝ) : ℝ :=
  (rolling_circle_radius num_lobes ring_radius + stationary_circle_radius num_lobes ring_radius) *
    (cos t -
      (eccentricity / stationary_circle_radius num_lobes ring_radius) *
        cos ((rolling_circle_radius num_lobes ring_radius +
              stationary_circle_radius num_lobes ring_radius) /
            stationary_circle_radius num_lobes ring_radius * t))

/-- Source line 373: effective_pin_radius = pin_radius + tolerance. -/
def effective_pin_radius (pin_radius tolerance : ℝ) : ℝ := pin_radius + tolerance

/-- Source line 374: xd = xa + pr / sqrt(dxa^2 + dya^2) * (-dya). -/
def cycloid_offset_x (eccentricity : ℝ) (num_lobes : ℕ) (ring_radius pr t : ℝ) : ℝ :=
  cycloid_xa eccentricity num_lobes ring_radius t +
    pr /
        Real.sqrt (cycloid_dxa eccentricity num_lobes ring_radius t ^ 2 +
          cycloid_dya eccentricity num_lobes ring_radius t ^ 2) *
      (-cycloid_dya eccentricity num_lobes ring_radius t)

/-- Source line 375: yd = ya + pr / sqrt(dxa^2 + dya^2) * dxa. -/
def cycloid_offset_y (eccentricity : ℝ) (num_lobes : ℕ) (ring_radius pr t : ℝ) : ℝ :=
  cycloid_ya eccentricity num_lobes ring_radius t +
    pr /
        Real.sqrt (cycloid_dxa eccentricity num_lobes ring_radius t ^ 2 +
          cycloid_dya eccentricity num_lobes ring_radius t ^ 2) *
      cycloid_dxa eccentricity num_lobes ring_radius t

/-- One sample of the display cycloid disk profile (source lines 348-379):
offset trace, rotated by -phi/num_lobes and translated by the eccentricity
vector. -/
def cycloid_disk_point (eccentricity : ℝ) (num_external_pins : ℕ)
    (ring_diameter pin_diameter phi tolerance t : ℝ) : ℝ × ℝ :=
  let num_lobes := num_external_pins - 1
  let xd := cycloid_offset_x eccentricity num_lobes (ring_diameter / 2)
    (effective_pin_radius (pin_diameter / 2) tolerance) t
  let yd := cycloid_offset_y eccentricity num_lobes (ring_diameter / 2)
    (effective_pin_radius (pin_diameter / 2) tolerance) t
  (xd * cos (-phi / (num_lobes : ℝ)) - yd * sin (-phi / (num_lobes : ℝ)) +
      eccentricity * cos phi,
    xd * sin (-phi / (num_lobes : ℝ)) + yd * cos (-phi / (num_lobes : ℝ)) +
      eccentricity * sin phi)

/-- Source lines 348-382: cycloid_disk returns a singleton list holding one
curve of points_per_lobe * num_lobes samples of the offset profile over the
closed grid linspace(0, 2*pi, total_points, endpoint=True). -/
def cycloid_disk (eccentricity : ℝ) (num_external_pins : ℕ)
    (ring_diameter pin_diameter phi tolerance : ℝ) : List (List (ℝ × ℝ × ℝ)) :=
  let num_lobes := num_external_pins - 1
  let points_per_lobe := 1500
  let total_points := points_per_lobe * num_lobes
  [(List.range total_points).map (fun i =>
    ((cycloid_disk_point eccentricity num_external_pins ring_diameter pin_diameter phi tolerance
        (linspaceClosed 0 (2 * π) total_points i)).1,
     (cycloid_disk_point eccentricity num_external_pins ring_diameter pin_diameter phi tolerance
        (linspaceClosed 0 (2 * π) total_points i)).2,
     (0 : ℝ)))]

/-- Source lines 315-327: one sample of output pin i.  The pin circle
(radius output_pin_diameter/2, centered on the output disk circle) is rotated
by -phi/num_lobes and is not translated by the eccentricity vector. -/
def inner_pin_point (num_output_pins num_external_pins : ℕ)
    (output_pin_diameter output_disk_diameter phi : ℝ) (i : ℕ) (t : ℝ) : ℝ × ℝ :=
  let num_lobes := num_external_pins - 1
  let output_pin_radius := output_pin_diameter / 2
  let output_disk_radius := output_disk_diameter / 2
  let a := 2 * π * i / (num_output_pins : ℝ)
  ((output_pin_radius * sin t + output_disk_radius * cos a) * cos (-phi / (num_lobes : ℝ)) -
      (output_pin_radius * cos t + output_disk_radius * sin a) * sin (-phi / (num_lobes : ℝ)),
    (output_pin_radius * sin t + output_disk_radius * cos a) * sin (-phi / (num_lobes : ℝ)) +
      (output_pin_radius * cos t + output_disk_radius * sin a) * cos (-phi / (num_lobes : ℝ)))

/-- Source line 341: hole_radius = output_pin_radius + eccentricity + tolerance. -/
def hole_radius (output_pin_radius eccentricity tolerance : ℝ) : ℝ :=
  output_pin_radius + eccentricity + tolerance

/-- Source lines 330-345: one sample of output hole i.  The hole circle
(radius hole_radius, same angular placement as the pins) is rotated by
-phi/num_lobes and then translated by the eccentricity vector. -/
def inner_circle_point (eccentricity : ℝ) (num_output_pins num_external_pins : ℕ)
    (output_pin_diameter output_disk_diameter phi tolerance : ℝ) (i : ℕ) (t : ℝ) : ℝ × ℝ :=
  let num_lobes := num_external_pins - 1
  let output_pin_radius := output_pin_diameter / 2
  let output_disk_radius := output_disk_diameter / 2
  let hr := hole_radius output_pin_radius eccentricity tolerance
  let a := 2 * π * i / (num_output_pins : ℝ)
  ((hr * cos t + output_disk_radius * cos a) * cos (-phi / (num_lobes : ℝ)) -
      (hr * sin t + output_disk_radius * sin a) * sin (-phi / (num_lobes : ℝ)) +
      eccentricity * cos phi,
    (hr * cos t + output_disk_radius * cos a) * sin (-phi / (num_lobes : ℝ)) +
      (hr * sin t + output_disk_radius * sin a) * cos (-phi / (num_lobes : ℝ)) +
      eccentricity * sin phi)

/-- Source line 389: hole_diameter = camshaft_diameter + 2 * tolerance. -/
def camshaft_hole_diameter (camshaft_diameter tolerance : ℝ) : ℝ :=
  camshaft_diameter + 2 * tolerance

/-- Source lines 385-392: the camshaft bore in the disk, a 200-point circle
of radius hole_diameter/2 centered at the origin. -/
def camshaft (camshaft_diameter phi tolerance : ℝ) : List (ℝ × ℝ × ℝ) :=
  (List.range 200).map (fun i =>
    let t := linspaceClosed 0 (2 * π) 200 i
    (camshaft_hole_diameter camshaft_diameter tolerance / 2 * cos t,
     camshaft_hole_diameter camshaft_diameter tolerance / 2 * sin t, (0 : ℝ)))

/-- Source line 400: shaft_radius = (camshaft_diameter - 2*eccentricity) / 2. -/
def shaft_radius (eccentricity camshaft_diameter : ℝ) : ℝ :=
  (camshaft_diameter - 2 * eccentricity) / 2

/-- Source lines 395-403: the eccentric shaft, a 200-point circle of radius
shaft_radius centered at the eccentricity vector.  The radius is used as-is,
whatever its sign. -/
def eccentric_camshaft (eccentricity camshaft_diameter phi : ℝ) : List (ℝ × ℝ × ℝ) :=
  (List.range 200).map (fun i =>
    let t := linspaceClosed 0 (2 * π) 200 i
    (shaft_radius eccentricity camshaft_diameter * cos t + eccentricity * cos phi,
     shaft_radius eccentricity camshaft_diameter * sin t + eccentricity * sin phi, (0 : ℝ)))

/-- Source lines 420-442: one sample of the display housing inner profile at
index i of total_points = 100 * num_pins samples. -/
def outer_ring_inner_point (num_pins : ℕ) (ring_diameter pin_diameter : ℝ)
    (i : ℕ) : ℝ × ℝ × ℝ :=
  let pin_radius := pin_diameter / 2
  let ring_radius := ring_diameter / 2
  let total_points := 100 * num_pins
  let angle := 2 * π * i / (total_points : ℝ)
  let pin_factor := cos ((num_pins : ℝ) * angle)
  let pocket_depth := pin_radius * 0.8
  let clearance_space := pin_radius * 0.8
  let radius_variation := pocket_depth + clearance_space
  let inner_radius := ring_radius - pocket_depth + radius_variation * (1 - pin_factor) / 2
  (inner_radius * cos angle, inner_radius * sin angle, (0 : ℝ))

/-- Source lines 406-458: outer_ring returns the closed inner pocketed profile
and the circular outer profile.  The tolerance argument is accepted (with the
source default 0 at every call site that omits it) but never read. -/
def outer_ring (num_pins : ℕ) (ring_diameter pin_diameter ring_width tolerance : ℝ) :
    List (ℝ × ℝ × ℝ) × List (ℝ × ℝ × ℝ) :=
  let inner := (List.range (100 * num_pins)).map
    (outer_ring_inner_point num_pins ring_diameter pin_diameter)
  let inner_profile := inner ++ inner.take 1
  let outer_radius := ring_diameter / 2 + ring_width
  let outer_profile := (List.range 200).map (fun i =>
    let t := linspaceClosed 0 (2 * π) 200 i
    (outer_radius * cos t, outer_radius * sin t, (0 : ℝ)))
  (inner_profile, outer_profile)

/-- Python round() (round-half-to-even), used at source line 130 as
int(round(theta / step)). -/
def pyRound (x : ℝ) : ℤ :=
  if Int.fract x = 1 / 2 then (if Even ⌊x⌋ then ⌊x⌋ else ⌊x⌋ + 1) else round x

/-- Source lines 124-126 of export_to_dxf: the smooth housing wall radius at
angle θ, blending with cos(Ne * θ) between R - pocket_depth at a pin and
R - pocket_depth + radius_variation between pins. -/
def r_housing (Ne : ℕ) (R rp θ : ℝ) : ℝ :=
  let pocket_depth := rp * 0.8
  let clearance_space := rp * 0.8
  let radius_variation := pocket_depth + clearance_space
  let pin_factor := cos ((Ne : ℝ) * θ)
  R - pocket_depth + radius_variation * (1 - pin_factor) / 2

/-- Source lines 128-144 of export_to_dxf: the ray-cast pin surface radius at
angle θ.  The pin is selected by rounding θ to the nearest pin-angle step; the
nearer quadratic root is used when the ray hits the pin going forward,
otherwise the sentinel 1e9. -/
def r_pin (Ne : ℕ) (R rp θ : ℝ) : ℝ :=
  let step := 2 * π / (Ne : ℝ)
  let pin_idx := pyRound (θ / step)
  let pin_angle := (pin_idx : ℝ) * step
  let cx := R * cos pin_angle
  let cy := R * sin pin_angle
  let dot_prod := cx * cos θ + cy * sin θ
  let dist_sq := cx ^ 2 + cy ^ 2
  let discriminant := dot_prod ^ 2 - (dist_sq - rp ^ 2)
  if discriminant ≥ 0 then
    (if dot_prod - Real.sqrt discriminant > 0 then dot_prod - Real.sqrt discriminant
     else (1e9 : ℝ))
  else (1e9 : ℝ)

/-- Source line 147 of export_to_dxf: final_r = min(r_housing, r_pin). -/
def merged_radius (Ne : ℕ) (R rp θ : ℝ) : ℝ :=
  min (r_housing Ne R rp θ) (r_pin Ne R rp θ)

/-- Modelled from the wording of the spec, section 4.5, for comparison with
the source r_housing: the wall radius oscillates between
ringRadius - pocketDepth (at a pin angle) and
ringRadius - pocketDepth + (pocketDepth + clearance) (between pins) with
cos(Ne*θ) as blending factor and pocketDepth = clearance = 0.8 * pinRadius. -/
def housingWallRadiusSpec (Ne : ℕ) (R rp θ : ℝ) : ℝ :=
  (R - 0.8 * rp) + (0.8 * rp + 0.8 * rp) * (1 - cos ((Ne : ℝ) * θ)) / 2

/-- One sample of the export cycloid disk profile, transcribed separately
from export_to_dxf source lines 182-201 (the inline re-derivation). -/
def export_disk_point (e : ℝ) (Ne : ℕ) (ring_d pin_d tol phi t : ℝ) : ℝ × ℝ :=
  let num_lobes := Ne - 1
  let R := ring_d / 2
  let rolling := ((num_lobes : ℝ) / ((num_lobes : ℝ) + 1)) * R
  let stationary := R / ((num_lobes : ℝ) + 1)
  let xa := (rolling + stationary) * cos t - e * cos ((rolling + stationary) / stationary * t)
  let ya := (rolling + stationary) * sin t - e * sin ((rolling + stationary) / stationary * t)
  let dxa := (rolling + stationary) *
    (-sin t + (e / stationary) * sin ((rolling + stationary) / stationary * t))
  let dya := (rolling + stationary) *
    (cos t - (e / stationary) * cos ((rolling + stationary) / stationary * t))
  let pin_r := pin_d / 2 + tol
  let xd := xa + pin_r / Real.sqrt (dxa ^ 2 + dya ^ 2) * (-dya)
  let yd := ya + pin_r / Real.sqrt (dxa ^ 2 + dya ^ 2) * dxa
  (xd * cos (-phi / (num_lobes : ℝ)) - yd * sin (-phi / (num_lobes : ℝ)) + e * cos phi,
   xd * sin (-phi / (num_lobes : ℝ)) + yd * cos (-phi / (num_lobes : ℝ)) + e * sin phi)

/-- Export_to_dxf source lines 182-203: the reduced-resolution disk spline
samples, 60 points per lobe over linspace(0, 2*pi, total_points, endpoint=True). -/
def export_disk_curve (e : ℝ) (Ne : ℕ) (ring_d pin_d tol phi : ℝ) : List (ℝ × ℝ × ℝ) :=
  let num_lobes := Ne - 1
  let points_per_lobe := 60
  let total_points := points_per_lobe * num_lobes
  (List.range total_points).map (fun i =>
    ((export_disk_point e Ne ring_d pin_d tol phi (linspaceClosed 0 (2 * π) total_points i)).1,
     (export_disk_point e Ne ring_d pin_d tol phi (linspaceClosed 0 (2 * π) total_points i)).2,
     (0 : ℝ)))

/-- The parameter dictionary of the application (source lines 572-585). -/
structure ParameterSet where
  eccentricity : ℝ
  num_external_pins : ℕ
  num_output_pins : ℕ
  ring_diameter : ℝ
  pin_diameter : ℝ
  output_disk_diameter : ℝ
  output_pin_diameter : ℝ
  camshaft_diameter : ℝ
  tolerance : ℝ
  show_outer_ring : Bool
  outer_ring_width : ℝ

/-- The DXF layers created by export_to_dxf (source lines 74-83). -/
inductive DxfLayer where
  | cycloidDisk : DxfLayer
  | outputPins : DxfLayer
  | outputHoles : DxfLayer
  | camshaftHole : DxfLayer
  | eccentricCam : DxfLayer
  | outerRing : DxfLayer
  | pinCenters : DxfLayer
  | centerAxis : DxfLayer
deriving DecidableEq

/-- The kinds of DXF entities emitted by export_to_dxf. -/
inductive EntKind where
  | point : EntKind
  | lwpolyline : EntKind
  | circle : EntKind
  | spline : EntKind
deriving DecidableEq

/-- One DXF entity, abstracted to its layer and kind. -/
structure Entity where
  layer : DxfLayer
  kind : EntKind
deriving DecidableEq

open Classical in
/-- The sequence of entities export_to_dxf (source lines 45-209) adds to the
modelspace: the center point, Ne pin-center points, the merged housing
polyline and outer circle when show_outer_ring, No output-pin circles, No
output-hole circles, the camshaft-hole circle, the eccentric-cam circle only
when cam_lobe_r > 0, and the closed disk spline. -/
def export_entities (p : ParameterSet) : List Entity :=
  [⟨DxfLayer.centerAxis, EntKind.point⟩] ++
  List.replicate p.num_external_pins ⟨DxfLayer.pinCenters, EntKind.point⟩ ++
  (if p.show_outer_ring then
    [⟨DxfLayer.outerRing, EntKind.lwpolyline⟩, ⟨DxfLayer.outerRing, EntKind.circle⟩]
   else []) ++
  List.replicate p.num_output_pins ⟨DxfLayer.outputPins, EntKind.circle⟩ ++
  List.replicate p.num_output_pins ⟨DxfLayer.outputHoles, EntKind.circle⟩ ++
  [⟨DxfLayer.camshaftHole, EntKind.circle⟩] ++
  (if (p.camshaft_diameter - 2 * p.eccentricity) / 2 > 0 then
    [⟨DxfLayer.eccentricCam, EntKind.circle⟩]
   else []) ++
  [⟨DxfLayer.cycloidDisk, EntKind.spline⟩]

/-- Source lines 45-209: export_to_dxf writes the entity list and returns
True; it has no error path for degenerate geometry. -/
def export_to_dxf (p : ParameterSet) (phi : ℝ) : List Entity × Bool :=
  (export_entities p, true)

/-- Center of output pin i as described by the spec: on a circle of radius
outputDiskDiameter/2 at angle 2*pi*i/numOutputPins. -/
def output_pin_center (num_output_pins : ℕ) (output_disk_diameter : ℝ) (i : ℕ) : ℝ × ℝ :=
  (output_disk_diameter / 2 * cos (2 * π * i / (num_output_pins : ℝ)),
   output_disk_diameter / 2 * sin (2 * π * i / (num_output_pins : ℝ)))

/-- Modelled from the wording of the spec, section 4.2, for comparison with
the source disk point: the hypocycloid trace offset by
(pinRadius + tolerance)/|(dxa,dya)| times (-dya, dxa), rotated by
-phi/L and translated by the eccentricity vector, embedded at z = 0. -/
def disk_point_spec (e : ℝ) (Ne : ℕ) (rd pd phi tol t : ℝ) : ℝ × ℝ × ℝ :=
  let L := Ne - 1
  let n := Real.sqrt (cycloid_dxa e L (rd / 2) t ^ 2 + cycloid_dya e L (rd / 2) t ^ 2)
  let base : ℝ × ℝ := (cycloid_xa e L (rd / 2) t, cycloid_ya e L (rd / 2) t)
  let offset : ℝ × ℝ :=
    ((pd / 2 + tol) / n * (-cycloid_dya e L (rd / 2) t),
     (pd / 2 + tol) / n * cycloid_dxa e L (rd / 2) t)
  let q := addV (rot2 (-phi / (L : ℝ)) (addV base offset)) (e * cos phi, e * sin phi)
  (q.1, q.2, 0)

/-- Helper: the sine of an integer number of full turns vanishes. -/
lemma sin_nat_mul_two_pi (n : ℕ) : Real.sin ((n : ℝ) * (2 * π)) = 0 := by
  have h : (n : ℝ) * (2 * π) = ((2 * n : ℕ) : ℝ) * π := by push_cast; ring
  rw [h, Real.sin_nat_mul_pi]

/-- Helper: for a nonzero ring radius the frequency ratio of the trace equals
num_lobes + 1 (rolling + stationary = ring radius, and the quotient by the
stationary radius is the integer L + 1). -/
lemma ratio_eq (L : ℕ) (rr : ℝ) (hrr : rr ≠ 0) :
    (rolling_circle_radius L rr + stationary_circle_radius L rr) /
      stationary_circle_radius L rr = (L : ℝ) + 1 := by
  have hL : ((L : ℝ) + 1) ≠ 0 := by positivity
  unfold rolling_circle_radius stationary_circle_radius
  field_simp
  ring

/-- Helper: the cosine of the trace frequency argument at t = 2*pi is 1. -/
lemma cos_ratio_two_pi (L : ℕ) (rr : ℝ) (hrr : rr ≠ 0) :
    cos ((rolling_circle_radius L rr + stationary_circle_radius L rr) /
      stationary_circle_radius L rr * (2 * π)) = 1 := by
  rw [ratio_eq L rr hrr]
  have hcast : ((L : ℝ) + 1) * (2 * π) = ((L + 1 : ℕ) : ℝ) * (2 * π) := by push_cast; ring
  rw [hcast, Real.cos_nat_mul_two_pi]

/-- Helper: the sine of the trace frequency argument at t = 2*pi is 0. -/
lemma sin_ratio_two_pi (L : ℕ) (rr : ℝ) (hrr : rr ≠ 0) :
    sin ((rolling_circle_radius L rr + stationary_circle_radius L rr) /
      stationary_circle_radius L rr * (2 * π)) = 0 := by
  rw [ratio_eq L rr hrr]
  have hcast : ((L : ℝ) + 1) * (2 * π) = ((L + 1 : ℕ) : ℝ) * (2 * π) := by push_cast; ring
  rw [hcast, sin_nat_mul_two_pi]

/-- Helper: the disk point function takes the same value at t = 2*pi as at
t = 0, because every trigonometric subterm has period 2*pi there. -/
lemma cycloid_disk_point_closed (e : ℝ) (Ne : ℕ) (rd pd phi tol : ℝ) (hrd : rd ≠ 0) :
    cycloid_disk_point e Ne rd pd phi tol (2 * π) =
      cycloid_disk_point e Ne rd pd phi tol 0 := by
  have hrr : rd / 2 ≠ 0 := div_ne_zero hrd two_ne_zero
  simp only [cycloid_disk_point, cycloid_offset_x, cycloid_offset_y, cycloid_xa, cycloid_ya,
    cycloid_dxa, cycloid_dya]
  rw [cos_ratio_two_pi _ _ hrr, sin_ratio_two_pi _ _ hrr, Real.cos_two_pi, Real.sin_two_pi]
  simp [mul_zero, Real.cos_zero, Real.sin_zero]

/-- Helper: the source disk point agrees with the spec-shaped point. -/
lemma cycloid_disk_point_eq_spec (e : ℝ) (Ne : ℕ) (rd pd phi tol t : ℝ) :
    ((cycloid_disk_point e Ne rd pd phi tol t).1,
     (cycloid_disk_point e Ne rd pd phi tol t).2, (0 : ℝ)) =
      disk_point_spec e Ne rd pd phi tol t := by
  simp only [cycloid_disk_point, disk_point_spec, addV, rot2, cycloid_offset_x,
    cycloid_offset_y, effective_pin_radius, Prod.mk.injEq]

/-- C9: outer_ring never reads its tolerance argument, so any two tolerance
values give identical inner and outer housing profiles. -/
theorem outer_ring_independent_of_tolerance (num_pins : ℕ)
    (ring_diameter pin_diameter ring_width t1 t2 : ℝ) :
    outer_ring num_pins ring_diameter pin_diameter ring_width t1 =
      outer_ring num_pins ring_diameter pin_diameter ring_width t2 := rfl

/-- Helper: the export disk point formula coincides with the display disk
point formula at every parameter value and sample time. -/
lemma export_disk_point_eq (e : ℝ) (Ne : ℕ) (rd pd tol phi t : ℝ) :
    export_disk_point e Ne rd pd tol phi t = cycloid_disk_point e Ne rd pd phi tol t := by
  simp only [export_disk_point, cycloid_disk_point, cycloid_offset_x, cycloid_offset_y,
    cycloid_xa, cycloid_ya, cycloid_dxa, cycloid_dya, effective_pin_radius,
    rolling_circle_radius, stationary_circle_radius]

/-- C5: the DXF export re-derives the disk inline at 60 points per lobe, and
that curve is pointwise the display generator formula cycloid_disk_point
evaluated on the same 60-points-per-lobe grid: same offset with effective pin
radius pin_diameter/2 + tolerance, same rotation -phi/L, same eccentricity
translation, differing from the display path only in sample count. -/
theorem export_disk_matches_display_grid (e : ℝ) (Ne : ℕ) (rd pd tol phi : ℝ) :
    export_disk_curve e Ne rd pd tol phi =
      (List.range (60 * (Ne - 1))).map (fun i =>
        ((cycloid_disk_point e Ne rd pd phi tol
            (linspaceClosed 0 (2 * π) (60 * (Ne - 1)) i)).1,
         (cycloid_disk_point e Ne rd pd phi tol
            (linspaceClosed 0 (2 * π) (60 * (Ne - 1)) i)).2,
         (0 : ℝ))) := by
  unfold export_disk_curve
  congr 1

/-- C7: increasing the tolerance strictly increases the output-hole radius
and the camshaft-bore radius, and strictly increases the inward offset
distance applied to the disk trace (so the disk outline only shrinks): the
offset point moves by exactly the tolerance increase along the inward unit
normal direction. -/
theorem tolerance_clearance_monotonicity (opr ecc cd pr : ℝ) (L : ℕ) (rr : ℝ)
    (t1 t2 : ℝ) (h : t1 < t2) :
    hole_radius opr ecc t1 < hole_radius opr ecc t2 ∧
    camshaft_hole_diameter cd t1 / 2 < camshaft_hole_diameter cd t2 / 2 ∧
    effective_pin_radius pr t1 < effective_pin_radius pr t2 ∧
    ∀ t : ℝ,
      cycloid_offset_x ecc L rr (effective_pin_radius pr t2) t =
        cycloid_offset_x ecc L rr (effective_pin_radius pr t1) t +
          (t2 - t1) * (-cycloid_dya ecc L rr t) /
            Real.sqrt (cycloid_dxa ecc L rr t ^ 2 + cycloid_dya ecc L rr t ^ 2) ∧
      cycloid_offset_y ecc L rr (effective_pin_radius pr t2) t =
        cycloid_offset_y ecc L rr (effective_pin_radius pr t1) t +
          (t2 - t1) * cycloid_dxa ecc L rr t /
            Real.sqrt (cycloid_dxa ecc L rr t ^ 2 + cycloid_dya ecc L rr t ^ 2) := by
  refine ⟨?_, ?_, ?_, ?_⟩
  · unfold hole_radius; linarith
  · unfold camshaft_hole_diameter; linarith
  · unfold effective_pin_radius; linarith
  · intro t
    constructor
    · unfold cycloid_offset_x effective_pin_radius; ring
    · unfold cycloid_offset_y effective_pin_radius; ring

/-- Witness for C7 at concrete parameters. -/
theorem tolerance_clearance_monotonicity_witness :
    (0.1 : ℝ) < 0.2 ∧
      hole_radius 5 1.4 0.1 < hole_radius 5 1.4 0.2 := by
  refine ⟨by norm_num, ?_⟩
  exact (tolerance_clearance_monotonicity 5 1.4 20 2.5 23 40 0.1 0.2 (by norm_num)).1

/-- Helper: a square root of a sum of squares equal to r squared is r. -/
lemma sqrt_sq_sum_eq (x y r : ℝ) (h : x ^ 2 + y ^ 2 = r ^ 2) (hr : 0 ≤ r) :
    Real.sqrt (x ^ 2 + y ^ 2) = r := by rw [h, Real.sqrt_sq hr]

/-- C6: each output pin sample is the rotation by -phi/L of a point at
distance outputPinDiameter/2 from the pin center (no eccentricity
translation), and each output hole sample is the rotation by -phi/L of a
point at distance outputPinRadius + eccentricity + tolerance from the same
center, translated by the eccentricity vector. -/
theorem output_pins_and_holes_placement (No Ne : ℕ) (opd odd ecc phi tol : ℝ)
    (i : ℕ) (t : ℝ) (h1 : 0 ≤ opd) (h2 : 0 ≤ opd / 2 + ecc + tol) :
    inner_pin_point No Ne opd odd phi i t =
      rot2 (-phi / ((Ne - 1 : ℕ) : ℝ))
        ((output_pin_center No odd i).1 + opd / 2 * sin t,
         (output_pin_center No odd i).2 + opd / 2 * cos t) ∧
    dist2 (inner_pin_point No Ne opd odd phi i t)
      (rot2 (-phi / ((Ne - 1 : ℕ) : ℝ)) (output_pin_center No odd i)) = opd / 2 ∧
    inner_circle_point ecc No Ne opd odd phi tol i t =
      addV (rot2 (-phi / ((Ne - 1 : ℕ) : ℝ))
        ((output_pin_center No odd i).1 + hole_radius (opd / 2) ecc tol * cos t,
         (output_pin_center No odd i).2 + hole_radius (opd / 2) ecc tol * sin t))
        (ecc * cos phi, ecc * sin phi) ∧
    dist2 (inner_circle_point ecc No Ne opd odd phi tol i t)
      (addV (rot2 (-phi / ((Ne - 1 : ℕ) : ℝ)) (output_pin_center No odd i))
        (ecc * cos phi, ecc * sin phi)) = hole_radius (opd / 2) ecc tol := by
  have hst := Real.sin_sq_add_cos_sq t
  have hsa := Real.sin_sq_add_cos_sq (-phi / ((Ne - 1 : ℕ) : ℝ))
  refine ⟨?_, ?_, ?_, ?_⟩
  · simp only [inner_pin_point, rot2, output_pin_center, Prod.mk.injEq]
    constructor <;> ring
  · unfold dist2
    simp only [inner_pin_point, rot2, output_pin_center]
    apply sqrt_sq_sum_eq
    · linear_combination ((opd / 2) ^ 2 * (sin t ^ 2 + cos t ^ 2)) * hsa +
        (opd / 2) ^ 2 * hst
    · linarith
  · simp only [inner_circle_point, addV, rot2, output_pin_center, hole_radius, Prod.mk.injEq]
    constructor <;> ring
  · unfold dist2
    simp only [inner_circle_point, addV, rot2, output_pin_center, hole_radius]
    apply sqrt_sq_sum_eq
    · linear_combination ((opd / 2 + ecc + tol) ^ 2 * (sin t ^ 2 + cos t ^ 2)) * hsa +
        (opd / 2 + ecc + tol) ^ 2 * hst
    · linarith

/-- Witness for C6 at concrete parameters. -/
theorem output_pins_and_holes_placement_witness :
    (0 : ℝ) ≤ 10 ∧ (0 : ℝ) ≤ 10 / 2 + 1.4 + 0.2 ∧
      dist2 (inner_pin_point 7 24 10 50 0.5 2 0.3)
        (rot2 (-0.5 / ((24 - 1 : ℕ) : ℝ)) (output_pin_center 7 50 2)) = 10 / 2 := by
  refine ⟨by norm_num, by norm_num, ?_⟩
  exact (output_pins_and_holes_placement 7 24 10 50 1.4 0.5 0.2 2 0.3 (by norm_num)
    (by norm_num)).2.1

/-- C1: for a valid parameter set (at least 3 external pins, positive ring
diameter) and any phase, cycloid_disk returns exactly one curve with
1500 * L samples (L = numExternalPins - 1), whose first and last points
coincide (a single continuous closed loop over all lobes in one pass), and
whose every sample is the hypocycloid trace offset by pinDiameter/2 +
tolerance along (-dya, dxa)/|(dxa, dya)|, rotated by -phi/L and translated
by the eccentricity vector. -/
theorem disk_profile_single_closed_loop (e : ℝ) (Ne : ℕ) (rd pd phi tol : ℝ)
    (hNe : 3 ≤ Ne) (hrd : 0 < rd) :
    ∃ c, cycloid_disk e Ne rd pd phi tol = [c] ∧
      c.length = 1500 * (Ne - 1) ∧
      c.get? 0 = c.get? (1500 * (Ne - 1) - 1) ∧
      ∀ i, i < 1500 * (Ne - 1) →
        c.get? i = some (disk_point_spec e Ne rd pd phi tol
          (linspaceClosed 0 (2 * π) (1500 * (Ne - 1)) i)) := by
  have hT : 3000 ≤ 1500 * (Ne - 1) := by omega
  refine ⟨(List.range (1500 * (Ne - 1))).map (fun i =>
    ((cycloid_disk_point e Ne rd pd phi tol
        (linspaceClosed 0 (2 * π) (1500 * (Ne - 1)) i)).1,
     (cycloid_disk_point e Ne rd pd phi tol
        (linspaceClosed 0 (2 * π) (1500 * (Ne - 1)) i)).2,
     (0 : ℝ))), rfl, ?_, ?_, ?_⟩
  · simp [List.length_map, List.length_range]
  · have h0 : 0 < 1500 * (Ne - 1) := by omega
    have hT1 : 1500 * (Ne - 1) - 1 < 1500 * (Ne - 1) := by omega
    rw [List.get?_map, List.get?_map, List.get?_range h0, List.get?_range hT1]
    have ht0 : linspaceClosed 0 (2 * π) (1500 * (Ne - 1)) 0 = 0 := by
      simp [linspaceClosed]
    have hne : ((1500 * (Ne - 1) : ℕ) : ℝ) - 1 ≠ 0 := by
      have h1 : (3000 : ℝ) ≤ ((1500 * (Ne - 1) : ℕ) : ℝ) := by exact_mod_cast hT
      linarith
    have htl : linspaceClosed 0 (2 * π) (1500 * (Ne - 1)) (1500 * (Ne - 1) - 1) = 2 * π := by
      simp only [linspaceClosed, sub_zero, zero_add]
      rw [Nat.cast_sub (by omega : 1 ≤ 1500 * (Ne - 1)), Nat.cast_one, mul_div_assoc,
        div_self hne, mul_one]
    simp only [Option.map_some']
    rw [ht0, htl, cycloid_disk_point_closed e Ne rd pd phi tol hrd.ne']
  · intro i hi
    rw [List.get?_map, List.get?_range hi]
    simp only [Option.map_some']
    exact congrArg some (cycloid_disk_point_eq_spec e Ne rd pd phi tol _)

/-- Witness for C1 at the default slider parameters. -/
theorem disk_profile_single_closed_loop_witness :
    3 ≤ 24 ∧ (0 : ℝ) < 80 ∧
      ∃ c, cycloid_disk 1.4 24 80 5 0 0.2 = [c] ∧
        c.length = 1500 * (24 - 1) ∧
        c.get? 0 = c.get? (1500 * (24 - 1) - 1) ∧
        ∀ i, i < 1500 * (24 - 1) →
          c.get? i = some (disk_point_spec 1.4 24 80 5 0 0.2
            (linspaceClosed 0 (2 * π) (1500 * (24 - 1)) i)) :=
  ⟨by norm_num, by norm_num,
    disk_profile_single_closed_loop 1.4 24 80 5 0 0.2 (by norm_num) (by norm_num)⟩

/-- Helper: the disk point function is invariant under advancing the phase by
2*pi*L, since the rotation angle -phi/L changes by a full turn and the
translation angle phi changes by L full turns. -/
lemma cycloid_disk_point_phase (e : ℝ) (Ne : ℕ) (rd pd phi tol t : ℝ) (hNe : 3 ≤ Ne) :
    cycloid_disk_point e Ne rd pd (phi + 2 * π * ((Ne - 1 : ℕ) : ℝ)) tol t =
      cycloid_disk_point e Ne rd pd phi tol t := by
  have hL : ((Ne - 1 : ℕ) : ℝ) ≠ 0 := by
    rw [Nat.cast_ne_zero]
    omega
  have key : ∀ L : ℝ, L ≠ 0 → -(phi + 2 * π * L) / L = -phi / L - 2 * π := by
    intro L hL0
    field_simp
    ring
  have h1 : -(phi + 2 * π * ((Ne - 1 : ℕ) : ℝ)) / ((Ne - 1 : ℕ) : ℝ) =
      -phi / ((Ne - 1 : ℕ) : ℝ) - 2 * π := key _ hL
  have h2 : phi + 2 * π * ((Ne - 1 : ℕ) : ℝ) = phi + (((Ne - 1 : ℕ) : ℤ) : ℝ) * (2 * π) := by
    push_cast
    ring
  simp only [cycloid_disk_point]
  rw [h1, Real.cos_sub_two_pi, Real.sin_sub_two_pi, h2, Real.cos_add_int_mul_two_pi,
    Real.sin_add_int_mul_two_pi]

/-- C8: advancing the input phase by 2*pi*L returns the generated disk
profile to exactly the same point list: one full orbital cycle restores the
disk pose. -/
theorem disk_profile_full_cycle_invariant (e : ℝ) (Ne : ℕ) (rd pd phi tol : ℝ)
    (hNe : 3 ≤ Ne) :
    cycloid_disk e Ne rd pd (phi + 2 * π * ((Ne - 1 : ℕ) : ℝ)) tol =
      cycloid_disk e Ne rd pd phi tol := by
  simp only [cycloid_disk]
  congr 1
  congr 1
  funext i
  rw [cycloid_disk_point_phase e Ne rd pd phi tol _ hNe]

/-- Witness for C8 at the default slider parameters. -/
theorem disk_profile_full_cycle_invariant_witness :
    3 ≤ 24 ∧
      cycloid_disk 1.4 24 80 5 (0 + 2 * π * ((24 - 1 : ℕ) : ℝ)) 0.2 =
        cycloid_disk 1.4 24 80 5 0 0.2 :=
  ⟨by norm_num, disk_profile_full_cycle_invariant 1.4 24 80 5 0 0.2 (by norm_num)⟩

/-- Helper: Python round of an exact natural number is that number. -/
lemma pyRound_natCast (i : ℕ) : pyRound (i : ℝ) = i := by
  unfold pyRound
  rw [Int.fract_natCast, if_neg (by norm_num : ¬((0 : ℝ) = 1 / 2)), round_natCast]

/-- Helper: the source housing wall radius is exactly the spec-described
oscillation between R - 0.8*rp and R - 0.8*rp + (0.8*rp + 0.8*rp). -/
lemma r_housing_eq_spec (Ne : ℕ) (R rp θ : ℝ) :
    r_housing Ne R rp θ = housingWallRadiusSpec Ne R rp θ := by
  simp only [r_housing, housingWallRadiusSpec]
  ring

/-- Helper: at a pin-center angle the blending factor cos(Ne*θ) is 1, so the
wall radius bottoms out at R - 0.8*rp. -/
lemma r_housing_at_pin (Ne : ℕ) (R rp : ℝ) (i : ℕ) (hNe : 0 < Ne) :
    r_housing Ne R rp (2 * π * i / (Ne : ℝ)) = R - rp * 0.8 := by
  have hNe0 : (Ne : ℝ) ≠ 0 := Nat.cast_ne_zero.mpr hNe.ne'
  simp only [r_housing]
  have harg : (Ne : ℝ) * (2 * π * i / (Ne : ℝ)) = (i : ℝ) * (2 * π) := by
    field_simp
    ring
  rw [harg, Real.cos_nat_mul_two_pi]
  ring

/-- Helper: at a pin-center angle the ray-cast radius is the near edge of
that pin, R - rp. -/
lemma r_pin_at_pin (Ne : ℕ) (R rp : ℝ) (i : ℕ) (hNe : 0 < Ne) (hrp : 0 ≤ rp)
    (hlt : rp < R) :
    r_pin Ne R rp (2 * π * i / (Ne : ℝ)) = R - rp := by
  have hNe0 : (Ne : ℝ) ≠ 0 := Nat.cast_ne_zero.mpr hNe.ne'
  simp only [r_pin]
  have hstep : 2 * π * (i : ℝ) / (Ne : ℝ) / (2 * π / (Ne : ℝ)) = (i : ℝ) := by
    field_simp
  rw [hstep, pyRound_natCast]
  have hangle : (((i : ℕ) : ℤ) : ℝ) * (2 * π / (Ne : ℝ)) = 2 * π * (i : ℝ) / (Ne : ℝ) := by
    push_cast
    ring
  rw [hangle]
  have hdot : R * cos (2 * π * (i : ℝ) / (Ne : ℝ)) * cos (2 * π * (i : ℝ) / (Ne : ℝ)) +
      R * sin (2 * π * (i : ℝ) / (Ne : ℝ)) * sin (2 * π * (i : ℝ) / (Ne : ℝ)) = R := by
    linear_combination R * Real.sin_sq_add_cos_sq (2 * π * (i : ℝ) / (Ne : ℝ))
  rw [hdot]
  have hdist : (R * cos (2 * π * (i : ℝ) / (Ne : ℝ))) ^ 2 +
      (R * sin (2 * π * (i : ℝ) / (Ne : ℝ))) ^ 2 = R ^ 2 := by
    linear_combination R ^ 2 * Real.sin_sq_add_cos_sq (2 * π * (i : ℝ) / (Ne : ℝ))
  rw [hdist]
  have hdisc : R ^ 2 - (R ^ 2 - rp ^ 2) = rp ^ 2 := by ring
  rw [hdisc, Real.sqrt_sq hrp, if_pos (sq_nonneg rp), if_pos (by linarith : R - rp > 0)]

/-- C2: the merged housing silhouette radius is the pointwise minimum of the
spec-described oscillating wall radius and the ray-cast pin radius, and at a
sample angle exactly on a pin center the pin radius is R - rp (the near pin
edge) while the wall radius is R - 0.8*rp, so the merged radius is their
minimum. -/
theorem housing_merged_silhouette (Ne : ℕ) (R rp θ : ℝ) (i : ℕ)
    (hNe : 0 < Ne) (hrp : 0 ≤ rp) (hlt : rp < R) :
    merged_radius Ne R rp θ =
      min (housingWallRadiusSpec Ne R rp θ) (r_pin Ne R rp θ) ∧
    r_housing Ne R rp (2 * π * i / (Ne : ℝ)) = R - rp * 0.8 ∧
    r_pin Ne R rp (2 * π * i / (Ne : ℝ)) = R - rp ∧
    merged_radius Ne R rp (2 * π * i / (Ne : ℝ)) = min (R - rp * 0.8) (R - rp) := by
  refine ⟨?_, r_housing_at_pin Ne R rp i hNe, r_pin_at_pin Ne R rp i hNe hrp hlt, ?_⟩
  · unfold merged_radius
    rw [r_housing_eq_spec]
  · unfold merged_radius
    rw [r_housing_at_pin Ne R rp i hNe, r_pin_at_pin Ne R rp i hNe hrp hlt]

/-- Witness for C2 at concrete parameters (24 pins, ring radius 40, pin
radius 2.5, sample on the center of pin 3). -/
theorem housing_merged_silhouette_witness :
    0 < 24 ∧ (0 : ℝ) ≤ 2.5 ∧ (2.5 : ℝ) < 40 ∧
      r_pin 24 40 2.5 (2 * π * ((3 : ℕ) : ℝ) / ((24 : ℕ) : ℝ)) = 40 - 2.5 := by
  refine ⟨by norm_num, by norm_num, by norm_num, ?_⟩
  exact (housing_merged_silhouette 24 40 2.5 0.7 3 (by norm_num) (by norm_num)
    (by norm_num)).2.2.1

/-- A parameter set with eccentricity 10.5 and camshaft diameter 20, so the
eccentric-shaft radius (20 - 2*10.5)/2 = -1/2 is negative. -/
def camDegenerateParams : ParameterSet where
  eccentricity := 10.5
  num_external_pins := 24
  num_output_pins := 7
  ring_diameter := 80
  pin_diameter := 5
  output_disk_diameter := 50
  output_pin_diameter := 10
  camshaft_diameter := 20
  tolerance := 0.2
  show_outer_ring := true
  outer_ring_width := 15

/-- Helper: when the eccentric-shaft radius is nonpositive, the exported
entity list contains nothing on the ECCENTRIC_CAM layer. -/
lemma export_no_cam_entity (p : ParameterSet) (phi : ℝ)
    (h : (p.camshaft_diameter - 2 * p.eccentricity) / 2 ≤ 0) :
    ∀ ent ∈ (export_to_dxf p phi).1, ent.layer ≠ DxfLayer.eccentricCam := by
  intro ent hmem
  simp only [export_to_dxf] at hmem
  unfold export_entities at hmem
  rw [if_neg (not_lt.mpr h)] at hmem
  cases hs : p.show_outer_ring <;>
    simp [hs, List.mem_append, List.mem_replicate] at hmem <;>
    aesop

/-- Helper: counting in a replicated list. -/
lemma countP_replicate (a : Entity) (q : Entity → Bool) (n : ℕ) :
    (List.replicate n a).countP q = if q a then n else 0 := by
  induction n with
  | zero => simp
  | succ n ih =>
      rw [List.replicate_succ, List.countP_cons, ih]
      by_cases hq : q a <;> simp [hq]

/-- C10: when the eccentric-shaft radius (camshaftDiameter - 2e)/2 is
nonpositive, export_to_dxf raises no error: it returns true, writes no
ECCENTRIC_CAM entity, and still writes the disk spline, the camshaft-hole
circle and the numOutputPins pin and hole circles. -/
theorem export_omits_eccentric_cam_silently (p : ParameterSet) (phi : ℝ)
    (h : (p.camshaft_diameter - 2 * p.eccentricity) / 2 ≤ 0) :
    (export_to_dxf p phi).2 = true ∧
    (∀ ent ∈ (export_to_dxf p phi).1, ent.layer ≠ DxfLayer.eccentricCam) ∧
    (export_to_dxf p phi).1.countP
      (fun ent => decide (ent.layer = DxfLayer.cycloidDisk)) = 1 ∧
    (export_to_dxf p phi).1.countP
      (fun ent => decide (ent.layer = DxfLayer.camshaftHole)) = 1 ∧
    (export_to_dxf p phi).1.countP
      (fun ent => decide (ent.layer = DxfLayer.outputPins)) = p.num_output_pins ∧
    (export_to_dxf p phi).1.countP
      (fun ent => decide (ent.layer = DxfLayer.outputHoles)) = p.num_output_pins := by
  refine ⟨rfl, export_no_cam_entity p phi h, ?_, ?_, ?_, ?_⟩
  all_goals
    simp only [export_to_dxf]
    unfold export_entities
    rw [if_neg (not_lt.mpr h)]
    cases hs : p.show_outer_ring <;>
      simp [hs, List.countP_append, countP_replicate, List.countP_cons]

/-- Witness for C10 at the degenerate parameter set. -/
theorem export_omits_eccentric_cam_silently_witness :
    (camDegenerateParams.camshaft_diameter - 2 * camDegenerateParams.eccentricity) / 2 ≤ 0 ∧
      (export_to_dxf camDegenerateParams 0).2 = true ∧
      ∀ ent ∈ (export_to_dxf camDegenerateParams 0).1,
        ent.layer ≠ DxfLayer.eccentricCam := by
  have h : (camDegenerateParams.camshaft_diameter -
      2 * camDegenerateParams.eccentricity) / 2 ≤ 0 := by
    norm_num [camDegenerateParams]
  exact ⟨h, (export_omits_eccentric_cam_silently camDegenerateParams 0 h).1,
    (export_omits_eccentric_cam_silently camDegenerateParams 0 h).2.1⟩

/-- C4 (code behavior at the failing input): with eccentricity 10.5 and
camshaft diameter 20 the shaft radius is the negative value -1/2, yet
eccentric_camshaft still returns a full 200-point circle with that radius,
and export_to_dxf returns true while silently dropping the ECCENTRIC_CAM
layer: no error condition is raised anywhere. -/
theorem nonpositive_shaft_radius_silently_unflagged :
    shaft_radius 10.5 20 = -(1 / 2) ∧
    (eccentric_camshaft 10.5 20 0).length = 200 ∧
    (export_to_dxf camDegenerateParams 0).2 = true ∧
    ∀ ent ∈ (export_to_dxf camDegenerateParams 0).1,
      ent.layer ≠ DxfLayer.eccentricCam := by
  refine ⟨by norm_num [shaft_radius], by simp [eccentric_camshaft], rfl, ?_⟩
  exact export_no_cam_entity camDegenerateParams 0 (by norm_num [camDegenerateParams])

/-- C3 (code behavior at the failing input): with eccentricity 10, four
external pins (three lobes) and ring diameter 80, the derivative magnitude
|(dxa, dya)| is exactly zero at the very first sample t = 0, yet
cycloid_disk still returns one full curve of 1500 * 3 points: the
degeneracy is not flagged by any error condition. -/
theorem zero_derivative_silently_unflagged :
    linspaceClosed 0 (2 * π) (1500 * 3) 0 = 0 ∧
    cycloid_dxa 10 3 40 0 = 0 ∧
    cycloid_dya 10 3 40 0 = 0 ∧
    Real.sqrt (cycloid_dxa 10 3 40 0 ^ 2 + cycloid_dya 10 3 40 0 ^ 2) = 0 ∧
    ∃ c, cycloid_disk 10 4 80 5 0 0 = [c] ∧ c.length = 1500 * 3 := by
  have hdxa : cycloid_dxa 10 3 40 0 = 0 := by
    simp [cycloid_dxa, rolling_circle_radius, stationary_circle_radius]
  have hdya : cycloid_dya 10 3 40 0 = 0 := by
    norm_num [cycloid_dya, rolling_circle_radius, stationary_circle_radius]
  refine ⟨by simp [linspaceClosed], hdxa, hdya, by rw [hdxa, hdya]; norm_num, ?_⟩
  refine ⟨_, rfl, ?_⟩
  simp [List.length_map, List.length_range]

end CycloidalGear

end
